import Mathlib

/-!
Storage layer of `ri-storage-twitter` (`src/mongodb.go`).

A shallow embedding of the MongoDB access functions of `mongodb.go`.

* `BsonValue`, `Doc`, `Cond`, `M`, `Query`, `Stage` model the BSON documents and the
  `bson.M` query / update / pipeline literals that the Go code builds.
* `Index`, `Insert`, `Upsert`, `RemoveAll`, `Find`, `Pipe` model the `mgo` collection
  calls the code makes, on a collection held as the list of its documents in
  natural (scan) order.
* `Session` is the database `twitter_data` after `MongoCreateCollectionIndexes`
  has run: every write goes through the index of its collection.
* The `Mongo...` functions are the functions of `mongodb.go`, with the session passed
  explicitly and the new session returned next to the Go result.
-/

namespace RiStorageTwitter

/-! ## BSON documents -/

/-- The BSON values held by the fields the queries look at. -/
inductive BsonValue where
  | str (s : String)
  | int (n : Int)
  deriving DecidableEq

/-- A BSON document: its fields in order. The `_id` the server adds is left out;
two equal entries of a collection are two stored documents. -/
structure Doc where
  fields : List (String × BsonValue)
  deriving DecidableEq

/-- The value of field `k`, `none` when the document has no such field. -/
def Doc.field (d : Doc) (k : String) : Option BsonValue :=
  d.fields.lookup k

/-- Writing one field, as `$set` does: an existing field keeps its place, a new one is appended. -/
def setField : List (String × BsonValue) → String → BsonValue → List (String × BsonValue)
  | [], k, v => [(k, v)]
  | (k', v') :: fs, k, v => if k' = k then (k, v) :: fs else (k', v') :: setField fs k v

/-- The document with field `k` set to `v`. -/
def Doc.set (d : Doc) (k : String) (v : BsonValue) : Doc :=
  ⟨setField d.fields k v⟩

/-- The update `{"$set": u}` applied to `d`: every field of `u` is written into `d`. -/
def Doc.applySet (d : Doc) (u : Doc) : Doc :=
  u.fields.foldl (fun acc kv => acc.set kv.1 kv.2) d

/-- Decoding of a string field into a Go `string`: the zero value when the field is
missing or is no string. -/
def Doc.getStr (d : Doc) (k : String) : String :=
  match d.field k with
  | some (.str s) => s
  | _ => ""

/-- Decoding of an integer field into a Go `int`: the zero value when the field is
missing or is no number. -/
def Doc.getInt (d : Doc) (k : String) : Int :=
  match d.field k with
  | some (.int n) => n
  | _ => 0

/-! ## Queries -/

/-- The condition a `bson.M` query puts on one field. -/
inductive Cond where
  /-- The entry `field: v`. -/
  | eq (v : BsonValue)
  /-- The entry `field: {"$nin": vs}`. -/
  | nin (vs : List BsonValue)
  /-- The entry `field: {"$gte": lo, "$lte": hi}`. -/
  | gteLte (lo hi : Int)
  deriving DecidableEq

/-- Whether a field value (`none`: the field is missing) meets a condition.
Equality and the range need the field to exist; `$nin` also selects documents
without the field; a range over numbers selects no string. -/
def Cond.holds : Cond → Option BsonValue → Bool
  | .eq v, some w => w == v
  | .eq _, none => false
  | .nin _, none => true
  | .nin vs, some w => !vs.contains w
  | .gteLte lo hi, some (.int n) => decide (lo ≤ n) && decide (n ≤ hi)
  | .gteLte _ _, _ => false

/-- A `bson.M` query document: conditions on fields, all of which must hold. -/
abbrev M := List (String × Cond)

/-- Whether document `d` meets every entry of the `bson.M` query `q`. -/
def matchesM (q : M) (d : Doc) : Bool :=
  q.all (fun e => e.2.holds (d.field e.1))

/-- A selector: a plain `bson.M` (`nil` is the empty one) or `{"$and": [...]}`. -/
inductive Query where
  | m (q : M)
  | and (qs : List M)

/-- Whether document `d` is selected by the query. -/
def Query.matches : Query → Doc → Bool
  | .m q, d => matchesM q d
  | .and qs, d => qs.all (fun q => matchesM q d)

/-- The equality entries of a `bson.M`, as a document. -/
def seedM (q : M) : List (String × BsonValue) :=
  q.filterMap (fun e => match e.2 with
    | .eq v => some (e.1, v)
    | _ => none)

/-- The document an upsert starts from when nothing matches: the equality entries
of the selector. -/
def Query.seed : Query → Doc
  | .m q => ⟨seedM q⟩
  | .and qs => ⟨(qs.map seedM).flatten⟩

/-- A stage of an aggregation pipeline; the code only uses `$match`. -/
inductive Stage where
  | matchStage (q : Query)

/-! ## Collections and indexes -/

/-- The fields of `mgo.Index` the code sets. -/
structure Index where
  Key : List String
  Unique : Bool
  Background : Bool
  Sparse : Bool
  deriving DecidableEq

/-- The index entry of a document: the values of the key fields (`none` for a
missing field), or no entry at all when the index is sparse and the document has
none of the key fields. -/
def Index.entry (ix : Index) (d : Doc) : Option (List (Option BsonValue)) :=
  if ix.Sparse && ix.Key.all (fun k => (d.field k).isNone) then none
  else some (ix.Key.map d.field)

/-- Whether storing `d` in collection `c` would break the uniqueness of `ix`: the index is
unique, `d` has an entry and a stored document has the same entry. -/
def Index.conflicts (ix : Index) (c : List Doc) (d : Doc) : Bool :=
  ix.Unique &&
    match ix.entry d with
    | none => false
    | some k => c.any (fun e => ix.entry e == some k)

/-- The uniqueness constraint of `ix` on collection `c`: no two stored documents have the
same index entry. -/
def Index.Holds (ix : Index) (c : List Doc) : Prop :=
  ix.Unique = true → (c.filterMap ix.entry).Nodup

instance (ix : Index) (c : List Doc) : Decidable (ix.Holds c) := by
  unfold Index.Holds; infer_instance

/-- The errors of the storage client that the code tells apart with `mgo.IsDup`. -/
inductive MgoError where
  | dup
  | other (msg : String)
  deriving DecidableEq

/-- The test `mgo.IsDup(err)`. -/
def IsDup : MgoError → Bool
  | .dup => true
  | .other _ => false

/-- The call `Collection.Insert(doc)` on a collection with index `ix`: a document whose index entry
is already stored is rejected with a duplicate-key error and the collection is
unchanged; otherwise the document is stored after the others. -/
def Insert (ix : Index) (c : List Doc) (d : Doc) : List Doc × Option MgoError :=
  if ix.conflicts c d then (c, some .dup) else (c ++ [d], none)

/-- The list with its first element selected by `p` replaced by `d'`. -/
def replaceFirst (p : Doc → Bool) (d' : Doc) : List Doc → List Doc
  | [] => []
  | e :: es => if p e then d' :: es else e :: replaceFirst p d' es

/-- The call `Collection.Upsert(selector, {"$set": u})` on a collection with index `ix`.
The first document the selector matches gets the fields of `u`; when that changes its
index entry into one that is already stored, the update is rejected with a duplicate-key
error. When nothing matches, the selector's equality fields with `u` applied are
inserted. -/
def Upsert (ix : Index) (c : List Doc) (selector : Query) (u : Doc) :
    List Doc × Option MgoError :=
  match c.find? selector.matches with
  | some d =>
    let d' := d.applySet u
    if ix.entry d' != ix.entry d && ix.conflicts c d' then (c, some .dup)
    else (replaceFirst selector.matches d' c, none)
  | none => Insert ix c (selector.seed.applySet u)

/-- The call `Collection.RemoveAll(selector)`. `fault` is the error the storage reports for
the call when it does not serve it (`none`: the call is served). A served call removes
every selected document and reports no error; a call that is not served removes nothing
and reports the error. -/
def RemoveAll (c : List Doc) (selector : Query) (fault : Option MgoError) :
    List Doc × Option MgoError :=
  match fault with
  | none => (c.filter (fun d => !selector.matches d), none)
  | some err => (c, some err)

/-- The call `Collection.Find(selector).All(&result)`, before decoding: the selected documents. -/
def Find (c : List Doc) (selector : Query) : List Doc :=
  c.filter selector.matches

/-- The call `Collection.Pipe(pipeline).All(&result)`, before decoding: the documents that pass
every stage in turn. -/
def Pipe (c : List Doc) (pipeline : List Stage) : List Doc :=
  pipeline.foldl (fun acc st => match st with
    | .matchStage q => acc.filter q.matches) c

/-- The call `Collection.EnsureIndex(ix)`: building a unique index fails when stored documents
already share an entry. -/
def EnsureIndex (ix : Index) (c : List Doc) : Option MgoError :=
  if ix.Holds c then none else some .dup

/-! ## The database and the Go types -/

/-- The database `twitter_data` with its four collections, each the list of its stored
documents, once `MongoCreateCollectionIndexes` has put the indexes in place. -/
structure Session where
  tweet : List Doc
  twitter_profile : List Doc
  observable_twitter : List Doc
  tweet_label : List Doc
  deriving DecidableEq

/-- Modelled from the spec: the Go struct `Tweet` is declared outside `mongodb.go`; these
are the Item attributes of the data model, under the field names the queries of
`mongodb.go` use. -/
structure Tweet where
  StatusID : String
  InReplyToScreenName : String
  TweetClass : String
  ClassifierCertainty : Int
  CreatedAt : Int
  deriving DecidableEq

/-- Modelled from the spec: the Go struct `TweetLabel` is declared outside `mongodb.go`; the
code reads its `StatusID` and `Label`. -/
structure TweetLabel where
  StatusID : String
  Label : String
  deriving DecidableEq

/-- Modelled from the spec: the Go struct `ObservableTwitter` is declared outside
`mongodb.go`; the code reads its `AccountName`, the index names `lang`, and `Config`
stands for the remaining configuration of the entry. -/
structure ObservableTwitter where
  AccountName : String
  Lang : String
  Config : String
  deriving DecidableEq

/-- Modelled from the spec: the bson tags of `Tweet` are declared outside `mongodb.go`; the
document a `Tweet` is stored as carries every attribute, under the field names of the
queries. -/
def Tweet.toDoc (t : Tweet) : Doc :=
  ⟨[("status_id", .str t.StatusID),
    ("in_reply_to_screen_name", .str t.InReplyToScreenName),
    ("tweet_class", .str t.TweetClass),
    ("classifier_certainty", .int t.ClassifierCertainty),
    ("created_at", .int t.CreatedAt)]⟩

/-- Modelled from the spec: the `Tweet` a stored document is read back as by `All(&tweets)`,
a missing field giving the zero value. -/
def Tweet.ofDoc (d : Doc) : Tweet :=
  { StatusID := d.getStr "status_id"
    InReplyToScreenName := d.getStr "in_reply_to_screen_name"
    TweetClass := d.getStr "tweet_class"
    ClassifierCertainty := d.getInt "classifier_certainty"
    CreatedAt := d.getInt "created_at" }

/-- Modelled from the spec: the bson tags of `TweetLabel` are declared outside `mongodb.go`;
the document a `TweetLabel` is stored as. -/
def TweetLabel.toDoc (l : TweetLabel) : Doc :=
  ⟨[("status_id", .str l.StatusID), ("label", .str l.Label)]⟩

/-- Modelled from the spec: the `TweetLabel` a stored document is read back as by
`All(&labeledTweets)`, a missing field giving the zero value. -/
def TweetLabel.ofDoc (d : Doc) : TweetLabel :=
  { StatusID := d.getStr "status_id", Label := d.getStr "label" }

/-- Modelled from the spec: the bson tags of `ObservableTwitter` are declared outside
`mongodb.go`; the document an `ObservableTwitter` is stored as, which is also the
argument of `$set` in `MongoInsertObservableTwitter`. -/
def ObservableTwitter.toDoc (o : ObservableTwitter) : Doc :=
  ⟨[("account_name", .str o.AccountName), ("lang", .str o.Lang), ("config", .str o.Config)]⟩

/-- Modelled from the spec: the `ObservableTwitter` a stored document is read back as by
`All(&observables)`, a missing field giving the zero value. -/
def ObservableTwitter.ofDoc (d : Doc) : ObservableTwitter :=
  { AccountName := d.getStr "account_name", Lang := d.getStr "lang",
    Config := d.getStr "config" }

/-! ## The functions of `mongodb.go` -/

/-- The index `tweetIndex` of `MongoCreateCollectionIndexes`. -/
def tweetIndex : Index :=
  { Key := ["status_id"], Unique := true, Background := true, Sparse := true }

/-- The index `twitterProfileIndex` of `MongoCreateCollectionIndexes`. -/
def twitterProfileIndex : Index :=
  { Key := ["profile_name"], Unique := true, Background := true, Sparse := true }

/-- The index `observableTwitterIndex` of `MongoCreateCollectionIndexes`. -/
def observableTwitterIndex : Index :=
  { Key := ["account_name", "lang"], Unique := true, Background := true, Sparse := true }

/-- The index `tweetLabelIndex` of `MongoCreateCollectionIndexes`. -/
def tweetLabelIndex : Index :=
  { Key := ["status_id"], Unique := true, Background := true, Sparse := true }

/-- The function `MongoCreateCollectionIndexes`: the four `EnsureIndex` calls in turn; `none` is
the `panic(err)` of a failed call. -/
def MongoCreateCollectionIndexes (s : Session) : Option Session :=
  match EnsureIndex tweetIndex s.tweet with
  | some _ => none
  | none =>
    match EnsureIndex twitterProfileIndex s.twitter_profile with
    | some _ => none
    | none =>
      match EnsureIndex observableTwitterIndex s.observable_twitter with
      | some _ => none
      | none =>
        match EnsureIndex tweetLabelIndex s.tweet_label with
        | some _ => none
        | none => some s

/-- One turn of the loop of `MongoInsertTweets`: the insert of one tweet. Its error is looked
at only to print it when it is no duplicate-key error, so the turn leaves the collection
as the insert left it and the loop goes on. -/
def insertTweet (s : Session) (tweet : Tweet) : Session :=
  { s with tweet := (Insert tweetIndex s.tweet tweet.toDoc).1 }

/-- The function `MongoInsertTweets`: the loop over the tweets in order, then `return true`. -/
def MongoInsertTweets (s : Session) (tweets : List Tweet) : Session × Bool :=
  (tweets.foldl insertTweet s, true)

/-- The function `MongoGetTweetOfClass`. -/
def MongoGetTweetOfClass (s : Session) (tweetedToName tweetClass : String) : List Tweet :=
  (Find s.tweet (.m [("in_reply_to_screen_name", .eq (.str tweetedToName)),
    ("tweet_class", .eq (.str tweetClass))])).map Tweet.ofDoc

/-- The function `MongoGetAllTweetsOfAccountName`. -/
def MongoGetAllTweetsOfAccountName (s : Session) (accountName : String) : List Tweet :=
  (Find s.tweet (.m [("in_reply_to_screen_name", .eq (.str accountName))])).map Tweet.ofDoc

/-- The function `MongoGetAllLabeledTweets`. -/
def MongoGetAllLabeledTweets (s : Session) : List TweetLabel :=
  (Find s.tweet_label (.m [])).map TweetLabel.ofDoc

/-- The function `MongoGetAllUnlabeledTweetsOfAccountName`: the labels are read, their status ids
appended one by one to `tweetsToExclude` (empty when there is no label), and the tweets
are fetched with the `$nin` query. -/
def MongoGetAllUnlabeledTweetsOfAccountName (s : Session) (accountName : String) :
    List Tweet :=
  let labeledTweets := (Find s.tweet_label (.m [])).map TweetLabel.ofDoc
  let tweetsToExclude : List String :=
    labeledTweets.foldl (fun acc tweet => acc ++ [tweet.StatusID]) []
  let query : M := [("in_reply_to_screen_name", .eq (.str accountName)),
    ("status_id", .nin (tweetsToExclude.map .str))]
  (Find s.tweet (.m query)).map Tweet.ofDoc

/-- The function `MongoGetAllTweetsOfAccountForCurrentWeek`: the one-stage pipeline
`$match` of `$and` of the account and the inclusive range on `created_at`. -/
def MongoGetAllTweetsOfAccountForCurrentWeek (s : Session) (accountName : String)
    (from_ to_ : Int) : List Tweet :=
  let pipeline : List Stage := [.matchStage (.and [[
    ("in_reply_to_screen_name", .eq (.str accountName)),
    ("created_at", .gteLte from_ to_)]])]
  (Pipe s.tweet pipeline).map Tweet.ofDoc

/-- The function `MongoInsertObservableTwitter`: the upsert selected by `account_name` with the
whole struct under `$set`; `false` only for an error that is no duplicate-key error. -/
def MongoInsertObservableTwitter (s : Session) (observable : ObservableTwitter) :
    Session × Bool :=
  let query : Query := .m [("account_name", .eq (.str observable.AccountName))]
  let r := Upsert observableTwitterIndex s.observable_twitter query observable.toDoc
  let s' := { s with observable_twitter := r.1 }
  match r.2 with
  | some err => if !IsDup err then (s', false) else (s', true)
  | none => (s', true)

/-- The function `MongoGetAllObservableTwitter`. -/
def MongoGetAllObservableTwitter (s : Session) : List ObservableTwitter :=
  (Find s.observable_twitter (.m [])).map ObservableTwitter.ofDoc

/-- The function `MongoDeleteObservableTwitter`: `RemoveAll` selected by `account_name`; the
result is `err == nil`. `fault` is the error, if any, that the storage reports for the
removal. -/
def MongoDeleteObservableTwitter (s : Session) (observable : ObservableTwitter)
    (fault : Option MgoError) : Session × Bool :=
  let r := RemoveAll s.observable_twitter
    (.m [("account_name", .eq (.str observable.AccountName))]) fault
  ({ s with observable_twitter := r.1 }, r.2.isNone)

/-- The function `MongoInsertTweetLabel`: one insert; `false` only for an error that is no
duplicate-key error. -/
def MongoInsertTweetLabel (s : Session) (tweetLabel : TweetLabel) : Session × Bool :=
  let r := Insert tweetLabelIndex s.tweet_label tweetLabel.toDoc
  let s' := { s with tweet_label := r.1 }
  match r.2 with
  | some err => if !IsDup err then (s', false) else (s', true)
  | none => (s', true)

/-- The function `MongoUpdateTweetClassAndCertainty`: the upsert selected by `status_id` that
sets `tweet_class` to the label and `classifier_certainty` to 100; `false` only for an
error that is no duplicate-key error. -/
def MongoUpdateTweetClassAndCertainty (s : Session) (tweetLabel : TweetLabel) :
    Session × Bool :=
  let query : Query := .m [("status_id", .eq (.str tweetLabel.StatusID))]
  let update : Doc :=
    ⟨[("tweet_class", .str tweetLabel.Label), ("classifier_certainty", .int 100)]⟩
  let r := Upsert tweetIndex s.tweet query update
  let s' := { s with tweet := r.1 }
  match r.2 with
  | some err => if !IsDup err then (s', false) else (s', true)
  | none => (s', true)

/-! ## The notions the properties are stated with -/

/-- Whether a stored document carries the status id `sid`. -/
def hasStatus (sid : String) (d : Doc) : Bool :=
  decide (d.field "status_id" = some (.str sid))

/-- Whether a stored document belongs to account `a`: its `in_reply_to_screen_name` is `a`. -/
def ofAccount (a : String) (d : Doc) : Bool :=
  decide (d.field "in_reply_to_screen_name" = some (.str a))

/-- Whether a stored document carries the account name `n`. -/
def hasAccountName (n : String) (d : Doc) : Bool :=
  decide (d.field "account_name" = some (.str n))

/-- Whether a stored document has a numeric `created_at` with `lo ≤ created_at ≤ hi`. -/
def inWindow (lo hi : Int) (d : Doc) : Bool :=
  match d.field "created_at" with
  | some (.int n) => decide (lo ≤ n ∧ n ≤ hi)
  | _ => false

/-- An Item of account `a` with the given status id and creation time, not yet
classified. -/
def sampleTweet (sid a : String) (createdAt : Int) : Tweet :=
  { StatusID := sid, InReplyToScreenName := a, TweetClass := "", ClassifierCertainty := 0,
    CreatedAt := createdAt }

/-- A store holding the Items s1, s2, s3 of account A and the Label of s2. -/
def sampleStore : Session :=
  { tweet := [(sampleTweet "s1" "A" 10).toDoc, (sampleTweet "s2" "A" 15).toDoc,
      (sampleTweet "s3" "A" 20).toDoc]
    twitter_profile := []
    observable_twitter := []
    tweet_label := [(⟨"s2", "spam"⟩ : TweetLabel).toDoc] }

/-- A store holding Items of account A created at 9, 10, 15, 20 and 21. -/
def windowStore : Session :=
  { tweet := [(sampleTweet "s1" "A" 9).toDoc, (sampleTweet "s2" "A" 10).toDoc,
      (sampleTweet "s3" "A" 15).toDoc, (sampleTweet "s4" "A" 20).toDoc,
      (sampleTweet "s5" "A" 21).toDoc]
    twitter_profile := []
    observable_twitter := []
    tweet_label := [] }

/-- The record an upsert of label `l` stores when no Item has its status id: the status id
of the selector and the two fields of the update. -/
def partialRecord (l : TweetLabel) : Doc :=
  ⟨[("status_id", .str l.StatusID), ("tweet_class", .str l.Label),
    ("classifier_certainty", .int 100)]⟩

/-- A store whose watch list holds account n in the language en only. -/
def oneLangStore : Session :=
  { tweet := []
    twitter_profile := []
    observable_twitter := [(⟨"n", "en", "c1"⟩ : ObservableTwitter).toDoc]
    tweet_label := [] }

/-- No two documents of the collection share a `status_id`: of two stored documents, the
first has no `status_id` or the two differ in it. -/
def UniqueStatusID (c : List Doc) : Prop :=
  c.Pairwise (fun a b => a.field "status_id" = none ∨ a.field "status_id" ≠ b.field "status_id")

instance (c : List Doc) : Decidable (UniqueStatusID c) := by
  unfold UniqueStatusID; infer_instance

/-- No two documents of the collection share `(account_name, lang)`: of two stored documents,
the first has neither field or the two differ in one of them. -/
def UniqueAccountLang (c : List Doc) : Prop :=
  c.Pairwise (fun a b => (a.field "account_name" = none ∧ a.field "lang" = none) ∨
    a.field "account_name" ≠ b.field "account_name" ∨ a.field "lang" ≠ b.field "lang")

instance (c : List Doc) : Decidable (UniqueAccountLang c) := by
  unfold UniqueAccountLang; infer_instance

/-- The three uniqueness constraints of the data model on the Item, Label and
ObservableAccount collections. -/
def UniquenessConstraints (s : Session) : Prop :=
  UniqueStatusID s.tweet ∧ UniqueStatusID s.tweet_label ∧
    UniqueAccountLang s.observable_twitter

instance (s : Session) : Decidable (UniquenessConstraints s) := by
  unfold UniquenessConstraints; infer_instance

/-- The write operations of the gateway, with their arguments; a removal comes with the
error, if any, that the storage reports for it. -/
inductive WriteOp where
  | InsertItems (items : List Tweet)
  | InsertLabel (label : TweetLabel)
  | ApplyLabelToItem (label : TweetLabel)
  | UpsertObservableAccount (account : ObservableTwitter)
  | DeleteObservableAccount (account : ObservableTwitter) (fault : Option MgoError)

/-- The store after one write operation. -/
def WriteOp.run (s : Session) : WriteOp → Session
  | .InsertItems items => (MongoInsertTweets s items).1
  | .InsertLabel label => (MongoInsertTweetLabel s label).1
  | .ApplyLabelToItem label => (MongoUpdateTweetClassAndCertainty s label).1
  | .UpsertObservableAccount account => (MongoInsertObservableTwitter s account).1
  | .DeleteObservableAccount account fault => (MongoDeleteObservableTwitter s account fault).1

/-- The store after a sequence of write operations. -/
def runAll (s : Session) (ops : List WriteOp) : Session :=
  ops.foldl WriteOp.run s

/-- The empty store. -/
def emptySession : Session :=
  { tweet := [], twitter_profile := [], observable_twitter := [], tweet_label := [] }

/-! ## Documents, indexes and collection calls -/

theorem lookup_setField_same (fs : List (String × BsonValue)) (k : String) (v : BsonValue) :
    (setField fs k v).lookup k = some v := by
  induction fs with
  | nil => simp [setField, List.lookup]
  | cons e fs ih =>
    obtain ⟨k', v'⟩ := e
    by_cases h : k' = k
    · simp [setField, h, List.lookup]
    · have h' : (k == k') = false := by simpa using fun e => h e.symm
      simp [setField, h, List.lookup, h', ih]

theorem lookup_setField_other (fs : List (String × BsonValue)) (k k' : String) (v : BsonValue)
    (hk : k' ≠ k) : (setField fs k v).lookup k' = fs.lookup k' := by
  induction fs with
  | nil =>
    have h' : (k' == k) = false := by simpa using hk
    simp [setField, List.lookup, h']
  | cons e fs ih =>
    obtain ⟨k₁, v₁⟩ := e
    by_cases h : k₁ = k
    · subst h
      have h' : (k' == k₁) = false := by simpa using hk
      simp [setField, List.lookup, h']
    · simp only [setField, h, if_false, List.lookup]
      cases hb : (k' == k₁) <;> simp [ih]

theorem field_set_same (d : Doc) (k : String) (v : BsonValue) : (d.set k v).field k = some v :=
  lookup_setField_same d.fields k v

theorem field_set_other (d : Doc) (k k' : String) (v : BsonValue) (hk : k' ≠ k) :
    (d.set k v).field k' = d.field k' :=
  lookup_setField_other d.fields k k' v hk

theorem holds_eq (v : BsonValue) (o : Option BsonValue) :
    (Cond.eq v).holds o = decide (o = some v) := by
  cases o with
  | none => simp [Cond.holds]
  | some w => simp [Cond.holds, beq_eq_decide]

theorem entry_tweetIndex (d : Doc) :
    tweetIndex.entry d = (d.field "status_id").map (fun v => [some v]) := by
  cases h : d.field "status_id" <;> simp [Index.entry, tweetIndex, h]

theorem conflicts_iff (ix : Index) (c : List Doc) (d : Doc) :
    ix.conflicts c d = true ↔
      ix.Unique = true ∧ ∃ k, ix.entry d = some k ∧ k ∈ c.filterMap ix.entry := by
  unfold Index.conflicts
  cases h : ix.entry d with
  | none => simp
  | some k =>
    simp only [Bool.and_eq_true, List.any_eq_true, beq_iff_eq, List.mem_filterMap,
      Option.some.injEq, exists_eq_left']

theorem filterMap_entry_append_singleton (ix : Index) (c : List Doc) (d : Doc) :
    (c ++ [d]).filterMap ix.entry = c.filterMap ix.entry ++ (ix.entry d).toList := by
  rw [List.filterMap_append]
  cases h : ix.entry d <;> simp [List.filterMap_cons, h]

theorem Insert_holds (ix : Index) (c : List Doc) (d : Doc) (h : ix.Holds c) :
    ix.Holds (Insert ix c d).1 := by
  unfold Insert
  by_cases hc : ix.conflicts c d = true
  · simpa [hc] using h
  · simp only [hc, Bool.false_eq_true, if_false]
    intro hu
    have hn := h hu
    rw [filterMap_entry_append_singleton]
    cases he : ix.entry d with
    | none => simpa using hn
    | some k =>
      have hk : k ∉ c.filterMap ix.entry := by
        intro hk
        exact hc ((conflicts_iff ix c d).2 ⟨hu, k, he, hk⟩)
      simp only [Option.toList_some]
      rw [List.nodup_append]
      refine ⟨hn, List.nodup_singleton k, ?_⟩
      intro x hx hx'
      rw [List.mem_singleton] at hx'
      exact hk (hx' ▸ hx)

theorem find_split (p : Doc → Bool) (d' : Doc) (c : List Doc) (d : Doc)
    (h : c.find? p = some d) :
    ∃ pre post, c = pre ++ d :: post ∧ (∀ e ∈ pre, p e = false) ∧ p d = true ∧
      replaceFirst p d' c = pre ++ d' :: post := by
  induction c with
  | nil => simp at h
  | cons e es ih =>
    by_cases hp : p e = true
    · have hd : e = d := by simpa [List.find?, hp] using h
      subst hd
      exact ⟨[], es, rfl, by simp, hp, by simp [replaceFirst, hp]⟩
    · have hp' : p e = false := by simpa using hp
      have h' : es.find? p = some d := by simpa [List.find?, hp'] using h
      obtain ⟨pre, post, h1, h2, h3, h4⟩ := ih h'
      refine ⟨e :: pre, post, by simp [h1], ?_, h3, by simp [replaceFirst, hp', h4]⟩
      intro x hx
      rcases List.mem_cons.1 hx with rfl | hx
      · exact hp'
      · exact h2 x hx

theorem Upsert_holds (ix : Index) (c : List Doc) (q : Query) (u : Doc) (h : ix.Holds c) :
    ix.Holds (Upsert ix c q u).1 := by
  unfold Upsert
  cases hf : c.find? q.matches with
  | none => exact Insert_holds ix c _ h
  | some d =>
    simp only
    by_cases hdup : (ix.entry (d.applySet u) != ix.entry d && ix.conflicts c (d.applySet u)) = true
    · simpa [hdup] using h
    · simp only [hdup, Bool.false_eq_true, if_false]
      obtain ⟨pre, post, h1, -, -, h4⟩ := find_split q.matches (d.applySet u) c d hf
      rw [h4]
      intro hu
      have hn := h hu
      rw [h1] at hn
      by_cases hsame : ix.entry (d.applySet u) = ix.entry d
      · simpa [List.filterMap_append, List.filterMap_cons, hsame] using hn
      · have hnc : ¬ ix.conflicts c (d.applySet u) = true := by
          intro hc
          apply hdup
          simp [hc, hsame]
        cases he : ix.entry (d.applySet u) with
        | none =>
          have hsub : List.Sublist ((pre ++ post).filterMap ix.entry)
              ((pre ++ d :: post).filterMap ix.entry) :=
            List.Sublist.filterMap _ (by simp)
          simpa [List.filterMap_append, List.filterMap_cons, he] using hn.sublist hsub
        | some k =>
          have hk : k ∉ c.filterMap ix.entry := by
            intro hk
            exact hnc ((conflicts_iff ix c _).2 ⟨hu, k, he, hk⟩)
          have hsub : List.Sublist ((pre ++ post).filterMap ix.entry)
              ((pre ++ d :: post).filterMap ix.entry) :=
            List.Sublist.filterMap _ (by simp)
          have hk' : k ∉ (pre ++ post).filterMap ix.entry := by
            intro hx
            apply hk
            rw [h1]
            exact hsub.subset hx
          have : (pre ++ d.applySet u :: post).filterMap ix.entry =
              pre.filterMap ix.entry ++ k :: post.filterMap ix.entry := by
            simp [List.filterMap_append, List.filterMap_cons, he]
          rw [this, List.nodup_middle, List.nodup_cons]
          refine ⟨?_, ?_⟩
          · simpa [List.filterMap_append] using hk'
          · simpa [List.filterMap_append] using hn.sublist hsub

theorem RemoveAll_holds (ix : Index) (c : List Doc) (q : Query) (fault : Option MgoError)
    (h : ix.Holds c) : ix.Holds (RemoveAll c q fault).1 := by
  cases fault with
  | none =>
    intro hu
    exact (h hu).sublist (List.Sublist.filterMap _ (List.filter_sublist _))
  | some err => exact h

theorem entry_tweetLabelIndex (d : Doc) :
    tweetLabelIndex.entry d = (d.field "status_id").map (fun v => [some v]) :=
  entry_tweetIndex d

theorem entry_observableTwitterIndex (d : Doc) :
    observableTwitterIndex.entry d =
      if d.field "account_name" = none ∧ d.field "lang" = none then none
      else some [d.field "account_name", d.field "lang"] := by
  cases h1 : d.field "account_name" <;> cases h2 : d.field "lang" <;>
    simp [Index.entry, observableTwitterIndex, h1, h2]

theorem holds_tweetIndex_iff (c : List Doc) : tweetIndex.Holds c ↔ UniqueStatusID c := by
  unfold Index.Holds UniqueStatusID List.Nodup
  rw [List.pairwise_filterMap]
  simp only [tweetIndex, true_implies]
  apply List.Pairwise.iff
  intro a b
  have ha := entry_tweetIndex a
  have hb := entry_tweetIndex b
  simp only [tweetIndex] at ha hb
  rw [ha, hb]
  cases h1 : a.field "status_id" <;> cases h2 : b.field "status_id" <;> simp

theorem holds_tweetLabelIndex_iff (c : List Doc) :
    tweetLabelIndex.Holds c ↔ UniqueStatusID c :=
  holds_tweetIndex_iff c

theorem holds_observableTwitterIndex_iff (c : List Doc) :
    observableTwitterIndex.Holds c ↔ UniqueAccountLang c := by
  unfold Index.Holds UniqueAccountLang List.Nodup
  rw [List.pairwise_filterMap]
  have hu : observableTwitterIndex.Unique = true := rfl
  simp only [hu, true_implies]
  apply List.Pairwise.iff
  intro a b
  rw [entry_observableTwitterIndex a, entry_observableTwitterIndex b]
  cases h1 : a.field "account_name" <;> cases h2 : a.field "lang" <;>
    cases h3 : b.field "account_name" <;> cases h4 : b.field "lang" <;> simp
  tauto

/-! ## What each function does to the session -/

theorem MongoInsertTweets_fst (s : Session) (tweets : List Tweet) :
    (MongoInsertTweets s tweets).1 =
      { s with tweet := tweets.foldl (fun c t => (Insert tweetIndex c t.toDoc).1) s.tweet } := by
  unfold MongoInsertTweets
  simp only
  induction tweets generalizing s with
  | nil => rfl
  | cons t ts ih => rw [List.foldl_cons, ih]; rfl

theorem MongoInsertTweetLabel_fst (s : Session) (l : TweetLabel) :
    (MongoInsertTweetLabel s l).1 =
      { s with tweet_label := (Insert tweetLabelIndex s.tweet_label l.toDoc).1 } := by
  unfold MongoInsertTweetLabel
  simp only
  split
  · split <;> rfl
  · rfl

theorem MongoUpdateTweetClassAndCertainty_fst (s : Session) (l : TweetLabel) :
    (MongoUpdateTweetClassAndCertainty s l).1 =
      { s with tweet := (Upsert tweetIndex s.tweet (.m [("status_id", .eq (.str l.StatusID))])
          ⟨[("tweet_class", .str l.Label), ("classifier_certainty", .int 100)]⟩).1 } := by
  unfold MongoUpdateTweetClassAndCertainty
  simp only
  split
  · split <;> rfl
  · rfl

theorem MongoInsertObservableTwitter_fst (s : Session) (o : ObservableTwitter) :
    (MongoInsertObservableTwitter s o).1 =
      { s with observable_twitter := (Upsert observableTwitterIndex s.observable_twitter
          (.m [("account_name", .eq (.str o.AccountName))]) o.toDoc).1 } := by
  unfold MongoInsertObservableTwitter
  simp only
  split
  · split <;> rfl
  · rfl

theorem foldl_Insert_holds (ix : Index) (f : Tweet → Doc) (ts : List Tweet) (c : List Doc)
    (h : ix.Holds c) : ix.Holds (ts.foldl (fun c t => (Insert ix c (f t)).1) c) := by
  induction ts generalizing c with
  | nil => exact h
  | cons t ts ih => exact ih _ (Insert_holds ix c (f t) h)

theorem run_preserves (s : Session) (op : WriteOp) (h : UniquenessConstraints s) :
    UniquenessConstraints (op.run s) := by
  obtain ⟨h1, h2, h3⟩ := h
  cases op with
  | InsertItems items =>
    simp only [WriteOp.run, MongoInsertTweets_fst]
    exact ⟨(holds_tweetIndex_iff _).1
      (foldl_Insert_holds tweetIndex Tweet.toDoc items s.tweet ((holds_tweetIndex_iff _).2 h1)),
      h2, h3⟩
  | InsertLabel label =>
    simp only [WriteOp.run, MongoInsertTweetLabel_fst]
    exact ⟨h1, (holds_tweetLabelIndex_iff _).1
      (Insert_holds _ _ _ ((holds_tweetLabelIndex_iff _).2 h2)), h3⟩
  | ApplyLabelToItem label =>
    simp only [WriteOp.run, MongoUpdateTweetClassAndCertainty_fst]
    exact ⟨(holds_tweetIndex_iff _).1
      (Upsert_holds _ _ _ _ ((holds_tweetIndex_iff _).2 h1)), h2, h3⟩
  | UpsertObservableAccount account =>
    simp only [WriteOp.run, MongoInsertObservableTwitter_fst]
    exact ⟨h1, h2, (holds_observableTwitterIndex_iff _).1
      (Upsert_holds _ _ _ _ ((holds_observableTwitterIndex_iff _).2 h3))⟩
  | DeleteObservableAccount account fault =>
    simp only [WriteOp.run, MongoDeleteObservableTwitter]
    exact ⟨h1, h2, (holds_observableTwitterIndex_iff _).1
      (RemoveAll_holds _ _ _ _ ((holds_observableTwitterIndex_iff _).2 h3))⟩

theorem runAll_preserves (ops : List WriteOp) (s : Session) (h : UniquenessConstraints s) :
    UniquenessConstraints (runAll s ops) := by
  induction ops generalizing s with
  | nil => exact h
  | cons op ops ih => exact ih _ (run_preserves s op h)

/-- C9: each write operation keeps the three uniqueness constraints (no two Items share a
status_id, no two Labels share a status_id, no two ObservableAccounts share
(account_name, lang)), whatever its arguments; hence every store reached from the empty
store by a sequence of write operations satisfies them. -/
theorem uniqueness_constraints_invariant :
    (∀ (s : Session) (op : WriteOp),
        UniquenessConstraints s → UniquenessConstraints (op.run s)) ∧
    (∀ ops : List WriteOp, UniquenessConstraints (runAll emptySession ops)) := by
  refine ⟨run_preserves, fun ops => runAll_preserves ops emptySession ?_⟩
  exact ⟨List.Pairwise.nil, List.Pairwise.nil, List.Pairwise.nil⟩

/-! ## Inserting Items -/

theorem field_status_toDoc (t : Tweet) : t.toDoc.field "status_id" = some (.str t.StatusID) := by
  simp [Tweet.toDoc, Doc.field, List.lookup]

theorem hasStatus_toDoc (sid : String) (t : Tweet) :
    hasStatus sid t.toDoc = decide (t.StatusID = sid) := by
  simp [hasStatus, field_status_toDoc]

theorem conflicts_tweet (c : List Doc) (t : Tweet) :
    tweetIndex.conflicts c t.toDoc = c.any (hasStatus t.StatusID) := by
  have hu : tweetIndex.Unique = true := rfl
  simp only [Index.conflicts, hu, Bool.true_and, entry_tweetIndex, field_status_toDoc,
    Option.map_some']
  congr 1
  funext e
  cases h : e.field "status_id" <;> simp [hasStatus, h, beq_eq_decide]

theorem Insert_tweet (c : List Doc) (t : Tweet) :
    (Insert tweetIndex c t.toDoc).1 =
      if c.any (hasStatus t.StatusID) then c else c ++ [t.toDoc] := by
  unfold Insert
  rw [conflicts_tweet]
  split <;> rfl

theorem filter_hasStatus_of_unique (c : List Doc) (sid : String) (h : UniqueStatusID c) :
    c.filter (hasStatus sid) = (c.find? (hasStatus sid)).toList := by
  induction c with
  | nil => rfl
  | cons e es ih =>
    unfold UniqueStatusID at h
    rw [List.pairwise_cons] at h
    by_cases he : hasStatus sid e = true
    · have hes : es.filter (hasStatus sid) = [] := by
        rw [List.filter_eq_nil_iff]
        intro b hb hbs
        have he' : e.field "status_id" = some (.str sid) := by simpa [hasStatus] using he
        have hb' : b.field "status_id" = some (.str sid) := by simpa [hasStatus] using hbs
        rcases h.1 b hb with h0 | h0
        · rw [he'] at h0; exact Option.noConfusion h0
        · exact h0 (he'.trans hb'.symm)
      simp [List.filter_cons, List.find?_cons, he, hes]
    · have he' : hasStatus sid e = false := by simpa using he
      simp only [List.filter_cons, List.find?_cons, he', Bool.false_eq_true, if_false]
      exact ih h.2

theorem foldl_Insert_tweet_filter (batch : List Tweet) (c : List Doc) (sid : String) :
    (batch.foldl (fun c t => (Insert tweetIndex c t.toDoc).1) c).filter (hasStatus sid) =
      if c.any (hasStatus sid) then c.filter (hasStatus sid)
      else ((batch.find? (fun u => u.StatusID == sid)).map Tweet.toDoc).toList := by
  induction batch generalizing c with
  | nil =>
    by_cases hc : c.any (hasStatus sid) = true
    · simp [hc]
    · have : c.filter (hasStatus sid) = [] := by
        rw [List.filter_eq_nil_iff]
        intro b hb hbs
        exact hc (List.any_eq_true.2 ⟨b, hb, hbs⟩)
      simp [hc, this]
  | cons t ts ih =>
    rw [List.foldl_cons, ih, Insert_tweet]
    by_cases ht : c.any (hasStatus t.StatusID) = true
    · simp only [ht, if_true]
      by_cases hc : c.any (hasStatus sid) = true
      · simp [hc]
      · have hne : (t.StatusID == sid) = false := by
          rw [beq_eq_false_iff_ne]
          intro e
          rw [e] at ht
          exact hc ht
        simp [hc, List.find?_cons, hne]
    · simp only [ht, Bool.false_eq_true, if_false]
      by_cases hts : t.StatusID = sid
      · subst hts
        have hf : c.filter (hasStatus t.StatusID) = [] := by
          rw [List.filter_eq_nil_iff]
          intro b hb hbs
          exact ht (List.any_eq_true.2 ⟨b, hb, hbs⟩)
        simp [ht, List.any_append, List.filter_append, hasStatus_toDoc, hf, List.find?_cons]
      · have hne : (t.StatusID == sid) = false := by
          rw [beq_eq_false_iff_ne]; exact hts
        simp [List.any_append, List.filter_append, hasStatus_toDoc, hts, List.find?_cons, hne]

theorem foldl_Insert_tweet_append (batch : List Tweet) (c : List Doc) :
    ∃ added, batch.foldl (fun c t => (Insert tweetIndex c t.toDoc).1) c = c ++ added ∧
      ∀ d ∈ added, ∃ t ∈ batch, d = t.toDoc := by
  induction batch generalizing c with
  | nil => exact ⟨[], by simp, by simp⟩
  | cons t ts ih =>
    rw [List.foldl_cons, Insert_tweet]
    by_cases ht : c.any (hasStatus t.StatusID) = true
    · simp only [ht, if_true]
      obtain ⟨added, h1, h2⟩ := ih c
      refine ⟨added, h1, fun d hd => ?_⟩
      obtain ⟨u, hu, hd'⟩ := h2 d hd
      exact ⟨u, List.mem_cons_of_mem _ hu, hd'⟩
    · simp only [ht, Bool.false_eq_true, if_false]
      obtain ⟨added, h1, h2⟩ := ih (c ++ [t.toDoc])
      refine ⟨t.toDoc :: added, by simp [h1], fun d hd => ?_⟩
      rcases List.mem_cons.1 hd with rfl | hd
      · exact ⟨t, List.mem_cons_self _ _, rfl⟩
      · obtain ⟨u, hu, hd'⟩ := h2 d hd
        exact ⟨u, List.mem_cons_of_mem _ hu, hd'⟩

/-- C8: a batch insert attempts every item in the order supplied, and a rejected duplicate does
not stop the rest. On a store whose Items have unique status ids, after the call every
status_id of the batch is stored exactly once: as the Item stored before the call when
there was one, else as the first item of the batch with that status_id. The stored Items
are kept unchanged and in place, what is added are items of the batch, the other
collections are untouched, and the call returns true. -/
theorem MongoInsertTweets_batch (s : Session) (batch : List Tweet)
    (h : UniqueStatusID s.tweet) :
    (MongoInsertTweets s batch).2 = true ∧
    (∀ t ∈ batch, ∃ u, batch.find? (fun u => u.StatusID == t.StatusID) = some u ∧
      (MongoInsertTweets s batch).1.tweet.filter (hasStatus t.StatusID) =
        [(s.tweet.find? (hasStatus t.StatusID)).getD u.toDoc]) ∧
    (∃ added, (MongoInsertTweets s batch).1 = { s with tweet := s.tweet ++ added } ∧
      ∀ d ∈ added, ∃ t ∈ batch, d = t.toDoc) := by
  refine ⟨rfl, ?_, ?_⟩
  · intro t ht
    rw [MongoInsertTweets_fst]
    simp only
    rw [foldl_Insert_tweet_filter, filter_hasStatus_of_unique _ _ h]
    cases hb : batch.find? (fun u => u.StatusID == t.StatusID) with
    | none =>
      have := List.find?_eq_none.1 hb t ht
      simp at this
    | some u =>
      refine ⟨u, rfl, ?_⟩
      cases hs : s.tweet.find? (hasStatus t.StatusID) with
      | none =>
        have hany : s.tweet.any (hasStatus t.StatusID) = false := by
          rw [List.any_eq_false]
          intro x hx
          simpa using List.find?_eq_none.1 hs x hx
        simp [hany]
      | some d =>
        have hany : s.tweet.any (hasStatus t.StatusID) = true :=
          List.any_eq_true.2 ⟨d, List.mem_of_find?_eq_some hs, List.find?_some hs⟩
        simp [hany]
  · obtain ⟨added, h1, h2⟩ := foldl_Insert_tweet_append batch s.tweet
    exact ⟨added, by rw [MongoInsertTweets_fst, h1], h2⟩

/-- C1: on a store whose Items have unique status ids (the status_id index is in place),
inserting the same Item twice in a row leaves exactly one stored Item with its status_id,
the second call changes nothing, and both calls return true. -/
theorem MongoInsertTweets_twice (s : Session) (t : Tweet) (h : UniqueStatusID s.tweet) :
    ((MongoInsertTweets (MongoInsertTweets s [t]).1 [t]).1.tweet.filter
        (hasStatus t.StatusID)).length = 1 ∧
    (MongoInsertTweets (MongoInsertTweets s [t]).1 [t]).1 = (MongoInsertTweets s [t]).1 ∧
    (MongoInsertTweets s [t]).2 = true ∧
    (MongoInsertTweets (MongoInsertTweets s [t]).1 [t]).2 = true := by
  have hstored : (MongoInsertTweets s [t]).1.tweet.any (hasStatus t.StatusID) = true := by
    rw [MongoInsertTweets_fst]
    simp only [List.foldl_cons, List.foldl_nil, Insert_tweet]
    by_cases ht : s.tweet.any (hasStatus t.StatusID) = true
    · simp only [ht, if_true]
    · simp [ht, List.any_append, hasStatus_toDoc]
  have hsame : (MongoInsertTweets (MongoInsertTweets s [t]).1 [t]).1 =
      (MongoInsertTweets s [t]).1 := by
    rw [MongoInsertTweets_fst (MongoInsertTweets s [t]).1]
    simp only [List.foldl_cons, List.foldl_nil, Insert_tweet, hstored, if_true]
  refine ⟨?_, hsame, rfl, rfl⟩
  rw [hsame, MongoInsertTweets_fst]
  simp only [List.foldl_cons, List.foldl_nil, Insert_tweet]
  by_cases ht : s.tweet.any (hasStatus t.StatusID) = true
  · simp only [ht, if_true]
    rw [filter_hasStatus_of_unique _ _ h]
    obtain ⟨d, hd, hds⟩ := List.any_eq_true.1 ht
    cases hf : s.tweet.find? (hasStatus t.StatusID) with
    | none =>
      have := List.find?_eq_none.1 hf d hd
      exact absurd hds this
    | some e => rfl
  · have hf : s.tweet.filter (hasStatus t.StatusID) = [] := by
      rw [List.filter_eq_nil_iff]
      intro b hb hbs
      exact ht (List.any_eq_true.2 ⟨b, hb, hbs⟩)
    simp [ht, List.filter_append, hf, hasStatus_toDoc]

/-! ## Queries -/

theorem foldl_append_singleton {α β : Type} (f : α → β) (l : List α) (acc : List β) :
    l.foldl (fun acc x => acc ++ [f x]) acc = acc ++ l.map f := by
  induction l generalizing acc with
  | nil => simp
  | cons x xs ih => simp [ih]

theorem holds_nin_str (xs : List String) (o : Option BsonValue) :
    (Cond.nin (xs.map .str)).holds o = decide (∀ x ∈ xs, o ≠ some (.str x)) := by
  cases o with
  | none => simp [Cond.holds]
  | some w =>
    cases w with
    | str y =>
      simp only [Cond.holds, ne_eq, Option.some.injEq, BsonValue.str.injEq]
      by_cases hy : y ∈ xs
      · have : (List.map BsonValue.str xs).contains (BsonValue.str y) = true := by
          simp [hy]
        rw [this]
        symm
        simp only [Bool.not_true, decide_eq_false_iff_not, not_forall]
        exact ⟨y, hy, fun h => h rfl⟩
      · have : (List.map BsonValue.str xs).contains (BsonValue.str y) = false := by
          simpa using hy
        rw [this]
        symm
        simp only [Bool.not_false, decide_eq_true_eq]
        intro x hx e
        exact hy (e ▸ hx)
    | int n => simp [Cond.holds]

theorem holds_gteLte (lo hi : Int) (d : Doc) :
    (Cond.gteLte lo hi).holds (d.field "created_at") = inWindow lo hi d := by
  unfold inWindow
  cases h : d.field "created_at" with
  | none => simp [Cond.holds]
  | some w => cases w <;> simp [Cond.holds]

theorem roundtrip_TweetLabel (l : TweetLabel) : TweetLabel.ofDoc l.toDoc = l := by
  simp [TweetLabel.ofDoc, TweetLabel.toDoc, Doc.getStr, Doc.field, List.lookup]

theorem roundtrip_Tweet (t : Tweet) : Tweet.ofDoc t.toDoc = t := by
  simp [Tweet.ofDoc, Tweet.toDoc, Doc.getStr, Doc.getInt, Doc.field, List.lookup]

theorem Find_all (c : List Doc) : Find c (.m []) = c := by
  simp [Find, Query.matches, matchesM]

theorem matches_account (a : String) :
    (Query.m [("in_reply_to_screen_name", .eq (.str a))]).matches = ofAccount a := by
  funext d
  simp [Query.matches, matchesM, holds_eq, ofAccount]

theorem matches_account_class (a cl : String) :
    (Query.m [("in_reply_to_screen_name", .eq (.str a)), ("tweet_class", .eq (.str cl))]).matches
      = fun d => ofAccount a d && decide (d.field "tweet_class" = some (.str cl)) := by
  funext d
  simp [Query.matches, matchesM, holds_eq, ofAccount]

theorem matches_account_nin (a : String) (xs : List String) :
    (Query.m [("in_reply_to_screen_name", .eq (.str a)),
      ("status_id", .nin (xs.map .str))]).matches
      = fun d => ofAccount a d && decide (∀ x ∈ xs, d.field "status_id" ≠ some (.str x)) := by
  funext d
  simp only [Query.matches, matchesM, List.all_cons, List.all_nil, Bool.and_true, holds_eq,
    holds_nin_str, ofAccount]

theorem matches_account_window (a : String) (lo hi : Int) :
    (Query.m [("in_reply_to_screen_name", .eq (.str a)),
      ("created_at", .gteLte lo hi)]).matches
      = fun d => ofAccount a d && inWindow lo hi d := by
  funext d
  simp only [Query.matches, matchesM, List.all_cons, List.all_nil, Bool.and_true, holds_eq,
    holds_gteLte, ofAccount]

theorem matches_and_account_window (a : String) (lo hi : Int) :
    (Query.and [[("in_reply_to_screen_name", .eq (.str a)),
      ("created_at", .gteLte lo hi)]]).matches
      = fun d => ofAccount a d && inWindow lo hi d := by
  funext d
  simp only [Query.matches, matchesM, List.all_cons, List.all_nil, Bool.and_true, holds_eq,
    holds_gteLte, ofAccount]

theorem unlabeled_eq (s : Session) (accountName : String) :
    MongoGetAllUnlabeledTweetsOfAccountName s accountName =
      (s.tweet.filter (fun d => ofAccount accountName d &&
        decide (∀ l ∈ MongoGetAllLabeledTweets s,
          d.field "status_id" ≠ some (.str l.StatusID)))).map Tweet.ofDoc := by
  unfold MongoGetAllUnlabeledTweetsOfAccountName MongoGetAllLabeledTweets
  simp only [foldl_append_singleton, List.nil_append, Find_all]
  rw [Find, matches_account_nin]
  congr 1
  apply List.filter_congr
  intro d _
  congr 1
  simp

/-- C2: the unlabeled query returns, in stored order, exactly the Items whose
in_reply_to_screen_name is the account and whose status_id is not the status_id of any
stored Label (the Labels as `MongoGetAllLabeledTweets` reads them, which for a collection
of inserted Labels are those Labels); with an empty Label collection that is every Item
of the account, the result of `MongoGetAllTweetsOfAccountName`; and with Items s1, s2, s3
of account A and the Label of s2 the result is s1, s3. -/
theorem MongoGetAllUnlabeledTweetsOfAccountName_spec (s : Session) (accountName : String) :
    MongoGetAllUnlabeledTweetsOfAccountName s accountName =
      (s.tweet.filter (fun d => ofAccount accountName d &&
        decide (∀ l ∈ MongoGetAllLabeledTweets s,
          d.field "status_id" ≠ some (.str l.StatusID)))).map Tweet.ofDoc ∧
    (∀ labels : List TweetLabel,
      MongoGetAllLabeledTweets { s with tweet_label := labels.map TweetLabel.toDoc } = labels) ∧
    MongoGetAllUnlabeledTweetsOfAccountName { s with tweet_label := [] } accountName =
      MongoGetAllTweetsOfAccountName { s with tweet_label := [] } accountName ∧
    MongoGetAllTweetsOfAccountName s accountName =
      (s.tweet.filter (ofAccount accountName)).map Tweet.ofDoc ∧
    MongoGetAllUnlabeledTweetsOfAccountName sampleStore "A" =
      [sampleTweet "s1" "A" 10, sampleTweet "s3" "A" 20] := by
  refine ⟨unlabeled_eq s accountName, ?_, ?_, ?_, by decide⟩
  · intro labels
    simp only [MongoGetAllLabeledTweets, Find_all, List.map_map]
    have : TweetLabel.ofDoc ∘ TweetLabel.toDoc = id := funext roundtrip_TweetLabel
    rw [this, List.map_id]
  · rw [unlabeled_eq]
    simp [MongoGetAllLabeledTweets, MongoGetAllTweetsOfAccountName, Find, matches_account]
  · simp [MongoGetAllTweetsOfAccountName, Find, matches_account]

theorem window_eq (s : Session) (accountName : String) (from_ to_ : Int) :
    MongoGetAllTweetsOfAccountForCurrentWeek s accountName from_ to_ =
      (s.tweet.filter (fun d => ofAccount accountName d && inWindow from_ to_ d)).map
        Tweet.ofDoc := by
  simp [MongoGetAllTweetsOfAccountForCurrentWeek, Pipe, matches_and_account_window]

/-- C7: the window query returns, in stored order, exactly the Items whose
in_reply_to_screen_name is the account and whose created_at lies in `[from_, to_]`, both
bounds included; the pipeline returns what the plain range filter returns; the result is
empty when `to_ < from_`; and the window (10, 20) keeps the Items created at 10, 15, 20
of the Items created at 9, 10, 15, 20, 21. -/
theorem MongoGetAllTweetsOfAccountForCurrentWeek_spec (s : Session) (accountName : String)
    (from_ to_ : Int) :
    MongoGetAllTweetsOfAccountForCurrentWeek s accountName from_ to_ =
      (s.tweet.filter (fun d => ofAccount accountName d && inWindow from_ to_ d)).map
        Tweet.ofDoc ∧
    MongoGetAllTweetsOfAccountForCurrentWeek s accountName from_ to_ =
      (Find s.tweet (.m [("in_reply_to_screen_name", .eq (.str accountName)),
        ("created_at", .gteLte from_ to_)])).map Tweet.ofDoc ∧
    (to_ < from_ → MongoGetAllTweetsOfAccountForCurrentWeek s accountName from_ to_ = []) ∧
    MongoGetAllTweetsOfAccountForCurrentWeek windowStore "A" 10 20 =
      [sampleTweet "s2" "A" 10, sampleTweet "s3" "A" 15, sampleTweet "s4" "A" 20] := by
  have h1 := window_eq s accountName from_ to_
  refine ⟨h1, ?_, ?_, by decide⟩
  · rw [h1, Find, matches_account_window]
  · intro hlt
    rw [h1, List.map_eq_nil_iff, List.filter_eq_nil_iff]
    intro d _
    have : inWindow from_ to_ d = false := by
      unfold inWindow
      split
      · rename_i n _
        simp only [decide_eq_false_iff_not, not_and, not_le]
        intro h
        omega
      · rfl
    simp [this]

/-! ## Applying a Label and maintaining the watch list -/

theorem matches_status (sid : String) :
    (Query.m [("status_id", .eq (.str sid))]).matches = hasStatus sid := by
  funext d
  simp [Query.matches, matchesM, holds_eq, hasStatus]

theorem matches_account_name (n : String) :
    (Query.m [("account_name", .eq (.str n))]).matches = hasAccountName n := by
  funext d
  simp [Query.matches, matchesM, holds_eq, hasAccountName]

theorem applySet_label (d : Doc) (l : TweetLabel) :
    d.applySet ⟨[("tweet_class", .str l.Label), ("classifier_certainty", .int 100)]⟩ =
      (d.set "tweet_class" (.str l.Label)).set "classifier_certainty" (.int 100) := rfl

theorem field_applySet_label (d : Doc) (l : TweetLabel) :
    ((d.set "tweet_class" (.str l.Label)).set "classifier_certainty" (.int 100)).field
        "tweet_class" = some (.str l.Label) ∧
    ((d.set "tweet_class" (.str l.Label)).set "classifier_certainty" (.int 100)).field
        "classifier_certainty" = some (.int 100) ∧
    ∀ k, k ≠ "tweet_class" → k ≠ "classifier_certainty" →
      ((d.set "tweet_class" (.str l.Label)).set "classifier_certainty" (.int 100)).field k =
        d.field k := by
  refine ⟨?_, field_set_same _ _ _, fun k h1 h2 => ?_⟩
  · rw [field_set_other _ _ _ _ (by decide), field_set_same]
  · rw [field_set_other _ _ _ _ h2, field_set_other _ _ _ _ h1]

theorem conflicts_status (c : List Doc) (d : Doc) (sid : String)
    (hd : d.field "status_id" = some (.str sid)) :
    tweetIndex.conflicts c d = c.any (hasStatus sid) := by
  have hu : tweetIndex.Unique = true := rfl
  simp only [Index.conflicts, hu, Bool.true_and, entry_tweetIndex, hd, Option.map_some']
  congr 1
  funext e
  cases h : e.field "status_id" <;> simp [hasStatus, h, beq_eq_decide]

theorem Upsert_label_found (c : List Doc) (l : TweetLabel) (d : Doc)
    (hf : c.find? (hasStatus l.StatusID) = some d) :
    Upsert tweetIndex c (.m [("status_id", .eq (.str l.StatusID))])
        ⟨[("tweet_class", .str l.Label), ("classifier_certainty", .int 100)]⟩ =
      (replaceFirst (hasStatus l.StatusID)
        ((d.set "tweet_class" (.str l.Label)).set "classifier_certainty" (.int 100)) c, none) := by
  unfold Upsert
  rw [matches_status, hf]
  simp only [applySet_label]
  have hsame : tweetIndex.entry
      ((d.set "tweet_class" (.str l.Label)).set "classifier_certainty" (.int 100)) =
      tweetIndex.entry d := by
    rw [entry_tweetIndex, entry_tweetIndex,
      (field_applySet_label d l).2.2 "status_id" (by decide) (by decide)]
  simp [hsame]

theorem Upsert_label_missing (c : List Doc) (l : TweetLabel)
    (hf : ∀ d ∈ c, hasStatus l.StatusID d = false) :
    Upsert tweetIndex c (.m [("status_id", .eq (.str l.StatusID))])
        ⟨[("tweet_class", .str l.Label), ("classifier_certainty", .int 100)]⟩ =
      (c ++ [partialRecord l], none) := by
  unfold Upsert
  have hnone : c.find? (hasStatus l.StatusID) = none := by
    rw [List.find?_eq_none]
    intro x hx
    simp [hf x hx]
  rw [matches_status, hnone]
  have hseed : (Query.m [("status_id", .eq (.str l.StatusID))]).seed.applySet
      ⟨[("tweet_class", .str l.Label), ("classifier_certainty", .int 100)]⟩ =
        partialRecord l := by
    simp [Query.seed, seedM, Doc.applySet, Doc.set, setField, partialRecord]
  simp only [hseed]
  unfold Insert
  have hany : c.any (hasStatus l.StatusID) = false := by
    rw [List.any_eq_false]
    intro x hx
    simp [hf x hx]
  rw [conflicts_status c (partialRecord l) l.StatusID (by simp [partialRecord, Doc.field, List.lookup]),
    hany]
  rfl

/-- C3: when an Item with the label's status_id is stored, applying the label returns true
and rewrites the first such Item (the only one when status ids are unique): its tweet_class
becomes the label, its classifier_certainty 100, whatever they were, and its other fields,
every other Item and the other collections are unchanged. -/
theorem MongoUpdateTweetClassAndCertainty_existing (s : Session) (l : TweetLabel)
    (h : ∃ d ∈ s.tweet, d.field "status_id" = some (.str l.StatusID)) :
    (MongoUpdateTweetClassAndCertainty s l).2 = true ∧
    ∃ pre d post d', s.tweet = pre ++ d :: post ∧
      d.field "status_id" = some (.str l.StatusID) ∧
      (∀ e ∈ pre, e.field "status_id" ≠ some (.str l.StatusID)) ∧
      (UniqueStatusID s.tweet → ∀ e ∈ post, e.field "status_id" ≠ some (.str l.StatusID)) ∧
      (MongoUpdateTweetClassAndCertainty s l).1 = { s with tweet := pre ++ d' :: post } ∧
      d'.field "tweet_class" = some (.str l.Label) ∧
      d'.field "classifier_certainty" = some (.int 100) ∧
      ∀ k, k ≠ "tweet_class" → k ≠ "classifier_certainty" → d'.field k = d.field k := by
  obtain ⟨d0, hd0, hs0⟩ := h
  have hsome : ∃ d, s.tweet.find? (hasStatus l.StatusID) = some d := by
    cases hf : s.tweet.find? (hasStatus l.StatusID) with
    | none =>
      have := List.find?_eq_none.1 hf d0 hd0
      simp [hasStatus, hs0] at this
    | some d => exact ⟨d, rfl⟩
  obtain ⟨d, hf⟩ := hsome
  have hup := Upsert_label_found s.tweet l d hf
  obtain ⟨pre, post, h1, h2, h3, h4⟩ := find_split (hasStatus l.StatusID)
    ((d.set "tweet_class" (.str l.Label)).set "classifier_certainty" (.int 100)) s.tweet d hf
  have hfields := field_applySet_label d l
  refine ⟨?_, pre, d, post, _, h1, by simpa [hasStatus] using h3, ?_, ?_, ?_,
    hfields.1, hfields.2.1, hfields.2.2⟩
  · unfold MongoUpdateTweetClassAndCertainty
    simp only [hup]
  · intro e he
    simpa [hasStatus] using h2 e he
  · intro hu e he hes
    have hfil := filter_hasStatus_of_unique s.tweet l.StatusID hu
    rw [hf, h1, List.filter_append, List.filter_cons] at hfil
    have hpre : pre.filter (hasStatus l.StatusID) = [] := by
      rw [List.filter_eq_nil_iff]
      intro x hx; simp [h2 x hx]
    have hmem : e ∈ post.filter (hasStatus l.StatusID) :=
      List.mem_filter.2 ⟨he, by simpa [hasStatus] using hes⟩
    simp only [hpre, h3, if_true, List.nil_append, Option.toList_some, List.cons.injEq,
      true_and] at hfil
    rw [hfil] at hmem
    exact absurd hmem (List.not_mem_nil e)
  · rw [MongoUpdateTweetClassAndCertainty_fst, hup, h4]

/-- C6: after a removal that the storage serves, no stored ObservableAccount has the account
name of the argument, whatever the lang of the entry or of the argument, and the entries
with another account_name are kept unchanged and in place, as are the other collections.
The call returns true exactly when the removal reports no error: true for a served
removal, false when the storage reports an error, whatever the error, and then the store
is as it was. -/
theorem MongoDeleteObservableTwitter_spec (s : Session) (a : ObservableTwitter) :
    (∀ d ∈ (MongoDeleteObservableTwitter s a none).1.observable_twitter,
      d.field "account_name" ≠ some (.str a.AccountName)) ∧
    (MongoDeleteObservableTwitter s a none).1 =
      { s with observable_twitter := (s.observable_twitter.filter
          (fun d => decide (d.field "account_name" ≠ some (.str a.AccountName)))) } ∧
    (∀ fault, ((MongoDeleteObservableTwitter s a fault).2 = true ↔
      (RemoveAll s.observable_twitter
        (.m [("account_name", .eq (.str a.AccountName))]) fault).2 = none)) ∧
    (∀ fault, (RemoveAll s.observable_twitter
        (.m [("account_name", .eq (.str a.AccountName))]) fault).2 = fault) ∧
    (MongoDeleteObservableTwitter s a none).2 = true ∧
    (∀ err, MongoDeleteObservableTwitter s a (some err) = (s, false)) := by
  have hst : (MongoDeleteObservableTwitter s a none).1 =
      { s with observable_twitter := (s.observable_twitter.filter
          (fun d => decide (d.field "account_name" ≠ some (.str a.AccountName)))) } := by
    simp [MongoDeleteObservableTwitter, RemoveAll, matches_account_name, hasAccountName]
  refine ⟨?_, hst, ?_, ?_, rfl, fun err => rfl⟩
  · rw [hst]
    intro d hd
    simpa using (List.mem_filter.1 hd).2
  · intro fault
    cases fault <;> simp [MongoDeleteObservableTwitter, RemoveAll]
  · intro fault
    cases fault <;> rfl

theorem EnsureIndex_eq_none (ix : Index) (c : List Doc) :
    EnsureIndex ix c = none ↔ ix.Holds c := by
  unfold EnsureIndex
  by_cases h : ix.Holds c <;> simp [h]

theorem MongoCreateCollectionIndexes_some (s s' : Session)
    (h : MongoCreateCollectionIndexes s = some s') : s' = s ∧ UniquenessConstraints s := by
  unfold MongoCreateCollectionIndexes at h
  cases h1 : EnsureIndex tweetIndex s.tweet with
  | some e => simp [h1] at h
  | none =>
    cases h2 : EnsureIndex twitterProfileIndex s.twitter_profile with
    | some e => simp [h1, h2] at h
    | none =>
      cases h3 : EnsureIndex observableTwitterIndex s.observable_twitter with
      | some e => simp [h1, h2, h3] at h
      | none =>
        cases h4 : EnsureIndex tweetLabelIndex s.tweet_label with
        | some e => simp [h1, h2, h3, h4] at h
        | none =>
          simp only [h1, h2, h3, h4, Option.some.injEq] at h
          exact ⟨h.symm, (holds_tweetIndex_iff _).1 ((EnsureIndex_eq_none _ _).1 h1),
            (holds_tweetLabelIndex_iff _).1 ((EnsureIndex_eq_none _ _).1 h4),
            (holds_observableTwitterIndex_iff _).1 ((EnsureIndex_eq_none _ _).1 h3)⟩

theorem filter_append_partialRecord (p : Doc → Bool) (c : List Doc) (l : TweetLabel)
    (hp : p (partialRecord l) = false) :
    (c ++ [partialRecord l]).filter p = c.filter p := by
  simp [List.filter_append, List.filter_cons, hp]

theorem ofAccount_partialRecord (a : String) (l : TweetLabel) :
    ofAccount a (partialRecord l) = false := by
  simp [ofAccount, partialRecord, Doc.field, List.lookup]

/-- C10, amended: when no Item with the label's status_id is stored, applying the label returns
true and appends exactly one record to the Items, leaving the stored Items and the other
collections unchanged. The new record holds the selector's status_id and the two updated
fields tweet_class and classifier_certainty = 100, and no other field (so no
in_reply_to_screen_name, no created_at); each per-account query returns what it returned
before. -/
theorem MongoUpdateTweetClassAndCertainty_missing (s : Session) (l : TweetLabel)
    (h : ∀ d ∈ s.tweet, d.field "status_id" ≠ some (.str l.StatusID)) :
    (MongoUpdateTweetClassAndCertainty s l).2 = true ∧
    (MongoUpdateTweetClassAndCertainty s l).1 =
      { s with tweet := s.tweet ++ [partialRecord l] } ∧
    (partialRecord l).field "status_id" = some (.str l.StatusID) ∧
    (partialRecord l).field "tweet_class" = some (.str l.Label) ∧
    (partialRecord l).field "classifier_certainty" = some (.int 100) ∧
    (∀ k, k ≠ "status_id" → k ≠ "tweet_class" → k ≠ "classifier_certainty" →
      (partialRecord l).field k = none) ∧
    (∀ a, MongoGetAllTweetsOfAccountName (MongoUpdateTweetClassAndCertainty s l).1 a =
      MongoGetAllTweetsOfAccountName s a) ∧
    (∀ a cl, MongoGetTweetOfClass (MongoUpdateTweetClassAndCertainty s l).1 a cl =
      MongoGetTweetOfClass s a cl) ∧
    (∀ a, MongoGetAllUnlabeledTweetsOfAccountName (MongoUpdateTweetClassAndCertainty s l).1 a =
      MongoGetAllUnlabeledTweetsOfAccountName s a) ∧
    (∀ a lo hi,
      MongoGetAllTweetsOfAccountForCurrentWeek (MongoUpdateTweetClassAndCertainty s l).1 a lo hi =
        MongoGetAllTweetsOfAccountForCurrentWeek s a lo hi) := by
  have hmiss : ∀ d ∈ s.tweet, hasStatus l.StatusID d = false := by
    intro d hd
    simpa [hasStatus] using h d hd
  have hup := Upsert_label_missing s.tweet l hmiss
  have hst : (MongoUpdateTweetClassAndCertainty s l).1 =
      { s with tweet := s.tweet ++ [partialRecord l] } := by
    rw [MongoUpdateTweetClassAndCertainty_fst, hup]
  refine ⟨?_, hst, ?_, ?_, ?_, ?_, ?_, ?_, ?_, ?_⟩
  · unfold MongoUpdateTweetClassAndCertainty
    simp only [hup]
  · simp [partialRecord, Doc.field, List.lookup]
  · simp [partialRecord, Doc.field, List.lookup]
  · simp [partialRecord, Doc.field, List.lookup]
  · intro k h1 h2 h3
    have e1 : (k == "status_id") = false := by simpa using h1
    have e2 : (k == "tweet_class") = false := by simpa using h2
    have e3 : (k == "classifier_certainty") = false := by simpa using h3
    simp [partialRecord, Doc.field, List.lookup, e1, e2, e3]
  · intro a
    rw [hst]
    simp only [MongoGetAllTweetsOfAccountName, Find, matches_account]
    rw [filter_append_partialRecord _ _ _ (ofAccount_partialRecord a l)]
  · intro a cl
    rw [hst]
    simp only [MongoGetTweetOfClass, Find, matches_account_class]
    rw [filter_append_partialRecord _ _ _ (by simp [ofAccount_partialRecord])]
  · intro a
    rw [hst, unlabeled_eq, unlabeled_eq]
    simp only [MongoGetAllLabeledTweets]
    rw [filter_append_partialRecord _ _ _ (by simp [ofAccount_partialRecord])]
  · intro a lo hi
    rw [hst, window_eq, window_eq]
    simp only
    rw [filter_append_partialRecord _ _ _ (by simp [ofAccount_partialRecord])]

/-- The status_id of the record an upsert creates is seen by the index: once the label of a
missing Item has been applied, inserting an Item with that status_id is rejected as a
duplicate and changes nothing. -/
theorem MongoInsertTweets_after_partialRecord (s : Session) (l : TweetLabel) (t : Tweet)
    (h : ∀ d ∈ s.tweet, d.field "status_id" ≠ some (.str l.StatusID))
    (ht : t.StatusID = l.StatusID) :
    (MongoInsertTweets (MongoUpdateTweetClassAndCertainty s l).1 [t]).1 =
      (MongoUpdateTweetClassAndCertainty s l).1 := by
  have hmiss : ∀ d ∈ s.tweet, hasStatus l.StatusID d = false := by
    intro d hd
    simpa [hasStatus] using h d hd
  rw [MongoInsertTweets_fst, MongoUpdateTweetClassAndCertainty_fst,
    Upsert_label_missing s.tweet l hmiss]
  have hany : (s.tweet ++ [partialRecord l]).any (hasStatus t.StatusID) = true := by
    rw [ht, List.any_append]
    simp [hasStatus, partialRecord, Doc.field, List.lookup]
  simp only [List.foldl_cons, List.foldl_nil, Insert_tweet, hany, if_true]

/-- C10, as stated, fails: on the empty store the record created for the label of s1 holds
the field status_id, which is not one of the updated fields. -/
theorem MongoUpdateTweetClassAndCertainty_missing_counterexample :
    (MongoUpdateTweetClassAndCertainty emptySession ⟨"s1", "spam"⟩).1.tweet =
      [partialRecord ⟨"s1", "spam"⟩] ∧
    ¬ ∀ k, (partialRecord ⟨"s1", "spam"⟩).field k ≠ none →
      k = "tweet_class" ∨ k = "classifier_certainty" := by
  refine ⟨by decide, fun h => ?_⟩
  have := h "status_id" (by decide)
  revert this
  decide

/-- C4, the code at the failing input: registering (n, en) on the empty store gives a watch
list holding (n, en) only, so no entry has both the name n and the lang de; registering
(n, de) then creates no document and rewrites the stored (n, en) entry into (n, de), so
that one entry is stored and not two. -/
theorem MongoInsertObservableTwitter_other_lang :
    MongoInsertObservableTwitter emptySession ⟨"n", "en", "c1"⟩ = (oneLangStore, true) ∧
    (∀ d ∈ oneLangStore.observable_twitter,
      ¬ (d.field "account_name" = some (.str "n") ∧ d.field "lang" = some (.str "de"))) ∧
    MongoInsertObservableTwitter oneLangStore ⟨"n", "de", "c2"⟩ =
      ({ oneLangStore with
          observable_twitter := [(⟨"n", "de", "c2"⟩ : ObservableTwitter).toDoc] }, true) ∧
    (⟨"n", "en", "c1"⟩ : ObservableTwitter).toDoc ∉
      (MongoInsertObservableTwitter oneLangStore ⟨"n", "de", "c2"⟩).1.observable_twitter := by
  decide

/-! ## The properties at concrete inputs -/

/-- The double insert of an Item with the stored status id s2 into the sample store. -/
theorem MongoInsertTweets_twice_witness :
    UniqueStatusID sampleStore.tweet ∧
    ((MongoInsertTweets (MongoInsertTweets sampleStore [sampleTweet "s2" "B" 7]).1
        [sampleTweet "s2" "B" 7]).1.tweet.filter (hasStatus "s2")).length = 1 ∧
    (MongoInsertTweets (MongoInsertTweets sampleStore [sampleTweet "s2" "B" 7]).1
        [sampleTweet "s2" "B" 7]).1 = (MongoInsertTweets sampleStore [sampleTweet "s2" "B" 7]).1 ∧
    (MongoInsertTweets sampleStore [sampleTweet "s2" "B" 7]).2 = true ∧
    (MongoInsertTweets (MongoInsertTweets sampleStore [sampleTweet "s2" "B" 7]).1
        [sampleTweet "s2" "B" 7]).2 = true :=
  ⟨by decide, MongoInsertTweets_twice sampleStore (sampleTweet "s2" "B" 7) (by decide)⟩

/-- The batch insert of a new Item s4, a stored status id s2 and a second s4 into the sample
store. -/
theorem MongoInsertTweets_batch_witness :
    UniqueStatusID sampleStore.tweet ∧
    (MongoInsertTweets sampleStore [sampleTweet "s4" "A" 30, sampleTweet "s2" "B" 7,
      sampleTweet "s4" "B" 31]).2 = true ∧
    (∀ t ∈ [sampleTweet "s4" "A" 30, sampleTweet "s2" "B" 7, sampleTweet "s4" "B" 31],
      ∃ u, [sampleTweet "s4" "A" 30, sampleTweet "s2" "B" 7, sampleTweet "s4" "B" 31].find?
          (fun u => u.StatusID == t.StatusID) = some u ∧
        (MongoInsertTweets sampleStore [sampleTweet "s4" "A" 30, sampleTweet "s2" "B" 7,
          sampleTweet "s4" "B" 31]).1.tweet.filter (hasStatus t.StatusID) =
          [(sampleStore.tweet.find? (hasStatus t.StatusID)).getD u.toDoc]) ∧
    (∃ added, (MongoInsertTweets sampleStore [sampleTweet "s4" "A" 30, sampleTweet "s2" "B" 7,
        sampleTweet "s4" "B" 31]).1 = { sampleStore with tweet := sampleStore.tweet ++ added } ∧
      ∀ d ∈ added, ∃ t ∈ [sampleTweet "s4" "A" 30, sampleTweet "s2" "B" 7,
        sampleTweet "s4" "B" 31], d = t.toDoc) :=
  ⟨by decide, MongoInsertTweets_batch sampleStore
    [sampleTweet "s4" "A" 30, sampleTweet "s2" "B" 7, sampleTweet "s4" "B" 31] (by decide)⟩

/-- The label of s2 applied to the sample store, which holds s2. -/
theorem MongoUpdateTweetClassAndCertainty_existing_witness :
    (∃ d ∈ sampleStore.tweet, d.field "status_id" = some (.str "s2")) ∧
    (MongoUpdateTweetClassAndCertainty sampleStore ⟨"s2", "spam"⟩).2 = true ∧
    ∃ pre d post d', sampleStore.tweet = pre ++ d :: post ∧
      d.field "status_id" = some (.str "s2") ∧
      (∀ e ∈ pre, e.field "status_id" ≠ some (.str "s2")) ∧
      (UniqueStatusID sampleStore.tweet →
        ∀ e ∈ post, e.field "status_id" ≠ some (.str "s2")) ∧
      (MongoUpdateTweetClassAndCertainty sampleStore ⟨"s2", "spam"⟩).1 =
        { sampleStore with tweet := pre ++ d' :: post } ∧
      d'.field "tweet_class" = some (.str "spam") ∧
      d'.field "classifier_certainty" = some (.int 100) ∧
      ∀ k, k ≠ "tweet_class" → k ≠ "classifier_certainty" → d'.field k = d.field k :=
  ⟨by decide, MongoUpdateTweetClassAndCertainty_existing sampleStore ⟨"s2", "spam"⟩ (by decide)⟩

/-- The window query with the bounds 21 and 20, in the wrong order, on the window store. -/
theorem MongoGetAllTweetsOfAccountForCurrentWeek_witness :
    (20 : Int) < 21 ∧ MongoGetAllTweetsOfAccountForCurrentWeek windowStore "A" 21 20 = [] :=
  ⟨by decide, (MongoGetAllTweetsOfAccountForCurrentWeek_spec windowStore "A" 21 20).2.2.1
    (by decide)⟩

/-- The upsert of a watch list entry on the sample store keeps the uniqueness constraints. -/
theorem uniqueness_constraints_invariant_witness :
    UniquenessConstraints sampleStore ∧
    UniquenessConstraints
      ((WriteOp.UpsertObservableAccount ⟨"n", "en", "c1"⟩).run sampleStore) :=
  ⟨by decide, uniqueness_constraints_invariant.1 sampleStore _ (by decide)⟩

/-- The label of s9 applied to the sample store, which holds no s9. -/
theorem MongoUpdateTweetClassAndCertainty_missing_witness :
    (∀ d ∈ sampleStore.tweet, d.field "status_id" ≠ some (.str "s9")) ∧
    (MongoUpdateTweetClassAndCertainty sampleStore ⟨"s9", "spam"⟩).2 = true ∧
    (MongoUpdateTweetClassAndCertainty sampleStore ⟨"s9", "spam"⟩).1 =
      { sampleStore with tweet := sampleStore.tweet ++ [partialRecord ⟨"s9", "spam"⟩] } :=
  ⟨by decide,
    (MongoUpdateTweetClassAndCertainty_missing sampleStore ⟨"s9", "spam"⟩ (by decide)).1,
    (MongoUpdateTweetClassAndCertainty_missing sampleStore ⟨"s9", "spam"⟩ (by decide)).2.1⟩

/-! ## What the upsert of the watch list does: it is keyed by the account name -/

theorem length_replaceFirst (p : Doc → Bool) (d' : Doc) (c : List Doc) :
    (replaceFirst p d' c).length = c.length := by
  induction c with
  | nil => rfl
  | cons e es ih =>
    by_cases hp : p e = true
    · simp [replaceFirst, hp]
    · simp [replaceFirst, hp, ih]

theorem Upsert_found_length (ix : Index) (c : List Doc) (q : Query) (u d : Doc)
    (hf : c.find? q.matches = some d) : (Upsert ix c q u).1.length = c.length := by
  unfold Upsert
  simp only [hf]
  split
  · rfl
  · exact length_replaceFirst _ _ _

theorem MongoInsertObservableTwitter_same_name_length (s : Session) (a : ObservableTwitter)
    (h : ∃ d ∈ s.observable_twitter, d.field "account_name" = some (.str a.AccountName)) :
    (MongoInsertObservableTwitter s a).1.observable_twitter.length =
      s.observable_twitter.length := by
  obtain ⟨d0, hd0, hs0⟩ := h
  rw [MongoInsertObservableTwitter_fst]
  cases hf : s.observable_twitter.find?
      (Query.m [("account_name", .eq (.str a.AccountName))]).matches with
  | none =>
    have := List.find?_eq_none.1 hf d0 hd0
    simp [matches_account_name, hasAccountName, hs0] at this
  | some d => exact Upsert_found_length _ _ _ _ d hf

end RiStorageTwitter
